import Mathlib

/-!
Verification of the AppDashboard log subsystem (src/AppDashboard/dashboard.py).

The development shallowly embeds the handlers of dashboard.py that the
specification describes: the reversed-timestamp record-key encoding and log
upload of LogUploadPage.post, the service/host registry updates, the paginated
log viewer of LogServiceHostPage.get, the refresh-task enqueueing of
AppUploadPage.post / AppDeletePage.post, and the StatusRefreshPage handler.
The Datastore is modelled as association lists keyed by string ids; get_by_id
and put are the usual keyed lookup/replace.  Python integer formatting
(str(n)) is embedded as the decimal numeral with no padding, and Python
int(x) on a JSON number as truncation toward zero on rationals.
-/

/-! ## Python integer formatting -/

/-- The character of the decimal digit d, as Python formats it
(code point 48 + d). -/
def decChar (d : ℕ) : Char := Char.ofNat (48 + d)

/-- Big-endian decimal digit characters of n, with explicit recursion fuel
(any fuel larger than the digit count yields the numeral). -/
def decDigitsAux : ℕ → ℕ → List Char
  | 0, _ => []
  | fuel + 1, n =>
    if n < 10 then [decChar n] else decDigitsAux fuel (n / 10) ++ [decChar (n % 10)]

/-- Embedding of Python str(n) for a natural number n: the decimal numeral,
no sign, no padding, no leading zeros. -/
def pyNatStr (n : ℕ) : String := String.mk (decDigitsAux (n + 1) n)

/-- Embedding of Python str(z) for an integer z. -/
def pyIntStr (z : ℤ) : String :=
  if z < 0 then "-" ++ pyNatStr z.natAbs else pyNatStr z.natAbs

/-- Embedding of Python int(x) applied to a (JSON) number, here a rational:
truncation toward zero. -/
def pyTrunc (q : ℚ) : ℤ := Int.tdiv q.num (q.den : ℤ)

/-! ## The time-key encoding of LogUploadPage.post

dashboard.py lines 783-785:
  the_time = int(log_line_dict[timestamp])
  reversed_time = (2**34 - the_time) * 1000000
  key_name = service_name + host + str(reversed_time)
-/

/-- reversed_time = (2**34 - the_time) * 1000000. -/
def reversedTime (theTime : ℤ) : ℤ := (2 ^ 34 - theTime) * 1000000

/-- str(reversed_time): the time fragment of the record key. -/
def encodeTimeKey (theTime : ℤ) : String := pyIntStr (reversedTime theTime)

/-- key_name = service_name + host + str(reversed_time). -/
def keyName (serviceName host : String) (theTime : ℤ) : String :=
  (serviceName ++ host) ++ encodeTimeKey theTime

/-- The largest timestamp of the representable window.  str applies no
padding, so the encoding has a fixed width (17 characters) exactly for the
timestamps t with 0 ≤ t and 10^10 ≤ 2^34 - t, i.e. t ≤ 2^34 - 10^10
(this covers all epoch-second timestamps up to the year 2197). -/
def windowMax : ℤ := 2 ^ 34 - 10 ^ 10

/-! ## Decimal numerals: fixed-width digits and lexicographic order -/

/-- The w low decimal digit characters of n, big-endian, zero-padded to
exactly width w.  On the representable window this coincides with the
unpadded numeral produced by str. -/
def padChars : ℕ → ℕ → List Char
  | 0, _ => []
  | w + 1, n => decChar (n / 10 ^ w) :: padChars w (n % 10 ^ w)

theorem padChars_length (w : ℕ) : ∀ n, (padChars w n).length = w := by
  induction w with
  | zero => intro n; rfl
  | succ w ih => intro n; simp [padChars, ih]

theorem decChar_lt_decChar : ∀ a, a < 10 → ∀ b, b < 10 → a < b → decChar a < decChar b := by
  decide

theorem padChars_succ_eq_append (w : ℕ) :
    ∀ n, n < 10 ^ (w + 1) → padChars (w + 1) n = padChars w (n / 10) ++ [decChar (n % 10)] := by
  induction w with
  | zero =>
    intro n hn
    have h10 : n % 10 = n := Nat.mod_eq_of_lt (by simpa using hn)
    simp [padChars, h10]
  | succ w ih =>
    intro n hn
    have hpow : (10 : ℕ) ^ (w + 1 + 1) = 10 * 10 ^ (w + 1) := by ring
    have hm : n % 10 ^ (w + 1) < 10 ^ (w + 1) :=
      Nat.mod_lt _ (pow_pos (by norm_num) _)
    have hdiv : n / 10 ^ (w + 1) = n / 10 / 10 ^ w := by
      rw [Nat.div_div_eq_div_mul]
      congr 1
      ring
    have hmoddiv : n % 10 ^ (w + 1) / 10 = n / 10 % 10 ^ w := by
      conv_lhs => rw [show (10 : ℕ) ^ (w + 1) = 10 * 10 ^ w from by ring]
      exact Nat.mod_mul_right_div_self n 10 (10 ^ w)
    have hmodmod : n % 10 ^ (w + 1) % 10 = n % 10 :=
      Nat.mod_mod_of_dvd n (dvd_pow_self 10 (Nat.succ_ne_zero w))
    calc padChars (w + 2) n
        = decChar (n / 10 ^ (w + 1)) :: padChars (w + 1) (n % 10 ^ (w + 1)) := rfl
      _ = decChar (n / 10 ^ (w + 1)) ::
            (padChars w (n % 10 ^ (w + 1) / 10) ++ [decChar (n % 10 ^ (w + 1) % 10)]) := by
          rw [ih _ hm]
      _ = decChar (n / 10 / 10 ^ w) :: (padChars w (n / 10 % 10 ^ w) ++ [decChar (n % 10)]) := by
          rw [hdiv, hmoddiv, hmodmod]
      _ = padChars (w + 1) (n / 10) ++ [decChar (n % 10)] := rfl

theorem decDigitsAux_eq_padChars :
    ∀ w fuel n, w < fuel → 10 ^ w ≤ n → n < 10 ^ (w + 1) →
      decDigitsAux fuel n = padChars (w + 1) n := by
  intro w
  induction w with
  | zero =>
    intro fuel n hf h1 h2
    match fuel, hf with
    | fuel + 1, _ =>
      have hn10 : n < 10 := by simpa using h2
      have h10 : n % 10 = n := Nat.mod_eq_of_lt hn10
      simp [decDigitsAux, hn10, padChars]
  | succ w ih =>
    intro fuel n hf h1 h2
    match fuel, hf with
    | fuel + 1, hf =>
      have hpow1 : (10 : ℕ) ^ 1 ≤ 10 ^ (w + 1) := Nat.pow_le_pow_right (by norm_num) (by omega)
      have hten : (10 : ℕ) ≤ n := le_trans (by simpa using hpow1) h1
      have hns : ¬ n < 10 := by omega
      have hd1 : 10 ^ w ≤ n / 10 := by
        rw [Nat.le_div_iff_mul_le (by norm_num)]
        calc 10 ^ w * 10 = 10 ^ (w + 1) := by ring
          _ ≤ n := h1
      have hd2 : n / 10 < 10 ^ (w + 1) := by
        rw [Nat.div_lt_iff_lt_mul (by norm_num)]
        calc n < 10 ^ (w + 1 + 1) := h2
          _ = 10 ^ (w + 1) * 10 := by ring
      have hrec : decDigitsAux fuel (n / 10) = padChars (w + 1) (n / 10) :=
        ih fuel (n / 10) (by omega) hd1 hd2
      calc decDigitsAux (fuel + 1) n
          = decDigitsAux fuel (n / 10) ++ [decChar (n % 10)] := by
            simp [decDigitsAux, hns]
        _ = padChars (w + 1) (n / 10) ++ [decChar (n % 10)] := by rw [hrec]
        _ = padChars (w + 1 + 1) n := (padChars_succ_eq_append (w + 1) n h2).symm

theorem padChars_lex : ∀ w m n, m < n → n < 10 ^ w →
    List.Lex (· < ·) (padChars w m) (padChars w n) := by
  intro w
  induction w with
  | zero => intro m n hmn hn; omega
  | succ w ih =>
    intro m n hmn hn
    have hpos : (0 : ℕ) < 10 ^ w := pow_pos (by norm_num) _
    have hdn : n / 10 ^ w < 10 := by
      rw [Nat.div_lt_iff_lt_mul hpos]
      calc n < 10 ^ (w + 1) := hn
        _ = 10 * 10 ^ w := by ring
    have hdle : m / 10 ^ w ≤ n / 10 ^ w := Nat.div_le_div_right (le_of_lt hmn)
    show List.Lex (· < ·) (decChar (m / 10 ^ w) :: padChars w (m % 10 ^ w))
        (decChar (n / 10 ^ w) :: padChars w (n % 10 ^ w))
    rcases lt_or_eq_of_le hdle with hlt | heq
    · exact List.Lex.rel
        (decChar_lt_decChar _ (lt_of_le_of_lt hdle hdn) _ hdn hlt)
    · rw [heq]
      apply List.Lex.cons
      apply ih
      · have em := Nat.div_add_mod m (10 ^ w)
        have en := Nat.div_add_mod n (10 ^ w)
        rw [heq] at em
        omega
      · exact Nat.mod_lt _ hpos

theorem pyNatStr_lt {m n : ℕ} (h16 : 10 ^ 16 ≤ m) (hmn : m < n) (h17 : n < 10 ^ 17) :
    pyNatStr m < pyNatStr n := by
  have hm17 : m < 10 ^ 17 := lt_trans hmn h17
  have hn16 : 10 ^ 16 ≤ n := le_of_lt (lt_of_le_of_lt h16 hmn)
  have hdm : decDigitsAux (m + 1) m = padChars 17 m :=
    decDigitsAux_eq_padChars 16 (m + 1) m (by omega) h16 hm17
  have hdn : decDigitsAux (n + 1) n = padChars 17 n :=
    decDigitsAux_eq_padChars 16 (n + 1) n (by omega) hn16 h17
  have hlex : List.Lex (· < ·) (padChars 17 m) (padChars 17 n) :=
    padChars_lex 17 m n hmn h17
  have hdata : List.Lex (· < ·) (pyNatStr m).data (pyNatStr n).data := by
    simpa [pyNatStr, hdm, hdn] using hlex
  exact String.lt_iff_toList_lt.mpr hdata

theorem pyNatStr_length {n : ℕ} (h16 : 10 ^ 16 ≤ n) (h17 : n < 10 ^ 17) :
    (pyNatStr n).length = 17 := by
  have hd : decDigitsAux (n + 1) n = padChars 17 n :=
    decDigitsAux_eq_padChars 16 (n + 1) n (by omega) h16 h17
  simp [pyNatStr, hd, String.length, padChars_length]

theorem reversedTime_eq (t : ℤ) : reversedTime t = (17179869184 - t) * 1000000 := by
  norm_num [reversedTime]

theorem windowMax_eq : windowMax = 7179869184 := by norm_num [windowMax]

theorem encodeTimeKey_eq_pyNatStr {t : ℤ} (h0 : 0 ≤ t) (hw : t ≤ windowMax) :
    encodeTimeKey t = pyNatStr (reversedTime t).natAbs ∧
      10 ^ 16 ≤ (reversedTime t).natAbs ∧ (reversedTime t).natAbs < 10 ^ 17 := by
  have hr := reversedTime_eq t
  have hwm := windowMax_eq
  have h16 : (10 : ℕ) ^ 16 = 10000000000000000 := by norm_num
  have h17 : (10 : ℕ) ^ 17 = 100000000000000000 := by norm_num
  refine ⟨?_, ?_, ?_⟩
  · have hneg : ¬ reversedTime t < 0 := by omega
    simp [encodeTimeKey, pyIntStr, hneg]
  · omega
  · omega

theorem encodeTimeKey_lt {t1 t2 : ℤ} (h0 : 0 ≤ t1) (h12 : t1 < t2) (h2 : t2 ≤ windowMax) :
    encodeTimeKey t2 < encodeTimeKey t1 := by
  have h0' : 0 ≤ t2 := le_trans h0 (le_of_lt h12)
  have h1w : t1 ≤ windowMax := le_trans (le_of_lt h12) h2
  obtain ⟨he1, h116, h117⟩ := encodeTimeKey_eq_pyNatStr h0 h1w
  obtain ⟨he2, h216, _⟩ := encodeTimeKey_eq_pyNatStr h0' h2
  rw [he1, he2]
  apply pyNatStr_lt h216 _ h117
  have hr1 := reversedTime_eq t1
  have hr2 := reversedTime_eq t2
  have hwm := windowMax_eq
  omega

theorem encodeTimeKey_length {t : ℤ} (h0 : 0 ≤ t) (hw : t ≤ windowMax) :
    (encodeTimeKey t).length = 17 := by
  obtain ⟨he, h16, h17⟩ := encodeTimeKey_eq_pyNatStr h0 hw
  rw [he]
  exact pyNatStr_length h16 h17

/-- C1: for timestamps t1 < t2 in the representable window (0 ≤ t ≤ 2^34 - 10^10,
the range on which the unpadded numeral keeps a constant width), the time-key
encoding of dashboard.py lines 783-785 is antitone in lexicographic string
order, and both encoded strings have the same fixed width of 17 characters. -/
theorem time_key_encoding_antitone_fixed_width (t1 t2 : ℤ)
    (h0 : 0 ≤ t1) (h12 : t1 < t2) (h2 : t2 ≤ windowMax) :
    encodeTimeKey t1 > encodeTimeKey t2 ∧
      (encodeTimeKey t1).length = 17 ∧ (encodeTimeKey t2).length = 17 :=
  ⟨encodeTimeKey_lt h0 h12 h2,
    encodeTimeKey_length h0 (le_trans (le_of_lt h12) h2),
    encodeTimeKey_length (le_trans h0 (le_of_lt h12)) h2⟩

/-- Witness for C1 at the concrete timestamps 1000 < 2000. -/
theorem time_key_encoding_antitone_fixed_width_witness :
    (0 : ℤ) ≤ 1000 ∧ (1000 : ℤ) < 2000 ∧ (2000 : ℤ) ≤ windowMax ∧
      (encodeTimeKey 1000 > encodeTimeKey 2000 ∧
        (encodeTimeKey 1000).length = 17 ∧ (encodeTimeKey 2000).length = 17) :=
  ⟨by norm_num, by norm_num, by rw [windowMax_eq]; norm_num,
    time_key_encoding_antitone_fixed_width 1000 2000 (by norm_num) (by norm_num)
      (by rw [windowMax_eq]; norm_num)⟩

/-! ## The Datastore models of dashboard.py

LoggedService (lines 47-55), AppLogLine (lines 58-71), RequestLogLine
(lines 74-91).  A stored datetime.datetime.fromtimestamp(the_time) is
represented by the integer the_time itself (fromtimestamp is injective on
epoch seconds).  The Datastore is an association list keyed by string ids;
get_by_id is keyed lookup and put replaces the entry with the same id or
inserts a fresh one. -/

structure AppLogLine where
  message : String
  level : ℤ
  timestamp : ℤ
deriving DecidableEq

structure RequestLogLine where
  service_name : String
  host : String
  app_logs : List AppLogLine
deriving DecidableEq

structure LoggedService where
  hosts : List String
deriving DecidableEq

/-- Model of ndb Model.get_by_id on a keyed table. -/
def getById {α : Type} : List (String × α) → String → Option α
  | [], _ => none
  | (k1, v1) :: rest, k => if k1 = k then some v1 else getById rest k

/-- Model of ndb Model.put on a keyed table: replace the entry with this id,
or insert a fresh one. -/
def putById {α : Type} : List (String × α) → String → α → List (String × α)
  | [], k, v => [(k, v)]
  | (k1, v1) :: rest, k, v =>
    if k1 = k then (k, v) :: rest else (k1, v1) :: putById rest k v

structure Datastore where
  services : List (String × LoggedService)
  logLines : List (String × RequestLogLine)
deriving DecidableEq

def emptyStore : Datastore := { services := [], logLines := [] }

theorem getById_putById_self {α : Type} :
    ∀ (table : List (String × α)) (k : String) (v : α),
      getById (putById table k v) k = some v := by
  intro table k v
  induction table with
  | nil => simp [putById, getById]
  | cons p rest ih =>
    obtain ⟨k1, v1⟩ := p
    by_cases h : k1 = k
    · simp [putById, getById, h]
    · simp [putById, getById, h, ih]

theorem getById_putById_ne {α : Type} :
    ∀ (table : List (String × α)) (k : String) (v : α) (k2 : String), k2 ≠ k →
      getById (putById table k v) k2 = getById table k2 := by
  intro table k v k2 hne
  have hkk2 : ¬ k = k2 := fun h => hne h.symm
  induction table with
  | nil => simp [putById, getById, hkk2]
  | cons p rest ih =>
    obtain ⟨k1, v1⟩ := p
    by_cases h : k1 = k
    · subst h
      simp [putById, getById, hkk2]
    · by_cases h2 : k1 = k2
      · simp [putById, getById, h, h2, hne]
      · simp [putById, getById, h, h2, ih]

theorem filter_putById_putById {α : Type} :
    ∀ (table : List (String × α)) (k : String) (v1 v2 : α),
      getById table k = none →
      (putById (putById table k v1) k v2).filter (fun p => p.1 == k) = [(k, v2)] := by
  intro table k v1 v2 hnone
  induction table with
  | nil => simp [putById, List.filter]
  | cons p rest ih =>
    obtain ⟨k1, w⟩ := p
    have hk1 : ¬ k1 = k := by
      intro h
      simp [getById, h] at hnone
    have hrest : getById rest k = none := by
      simpa [getById, hk1] using hnone
    have hk1b : (k1 == k) = false := by simpa using hk1
    simp only [putById, if_neg hk1, List.filter, hk1b]
    exact ih hrest

/-! ## LogUploadPage.post (dashboard.py lines 762-797) -/

/-- One element of the uploaded logs array: a JSON dict with a (possibly
fractional) numeric timestamp, a message and an integer level. -/
structure LogLineDict where
  timestamp : ℚ
  message : String
  level : ℤ
deriving DecidableEq

/-- Service registration, dashboard.py lines 770-779: create the
LoggedService with hosts = [host] if absent, append host if unseen,
otherwise do nothing. -/
def registerHost (d : Datastore) (serviceName host : String) : Datastore :=
  match getById d.services serviceName with
  | none => { d with services := putById d.services serviceName ⟨[host]⟩ }
  | some service =>
    if host ∈ service.hosts then d
    else { d with services := putById d.services serviceName ⟨service.hosts ++ [host]⟩ }

/-- The body of the upload loop, dashboard.py lines 782-797: truncate the
timestamp, build the record key, fetch or create the RequestLogLine, append
the new AppLogLine and put. -/
def uploadLogLine (d : Datastore) (serviceName host : String) (line : LogLineDict) : Datastore :=
  let theTime := pyTrunc line.timestamp
  let key := keyName serviceName host theTime
  let logLine : RequestLogLine :=
    match getById d.logLines key with
    | none => { service_name := serviceName, host := host, app_logs := [] }
    | some r => r
  let appLogLine : AppLogLine :=
    { message := line.message, level := line.level, timestamp := theTime }
  { d with logLines := (putById d.logLines key
      ⟨logLine.service_name, logLine.host, logLine.app_logs ++ [appLogLine]⟩) }

/-- The JSON body accepted by /logs/upload. -/
structure UploadBody where
  service_name : String
  host : String
  logs : List LogLineDict
deriving DecidableEq

/-- LogUploadPage.post: register the (service, host) pair, then process each
log line in order. -/
def logUploadPost (d : Datastore) (body : UploadBody) : Datastore :=
  let d1 := registerHost d body.service_name body.host
  body.logs.foldl (fun acc line => uploadLogLine acc body.service_name body.host line) d1

/-- The hosts displayed for a service (LogServicePage.get, lines 691-697):
the hosts of the LoggedService entity, or the empty list if unknown. -/
def listHosts (d : Datastore) (serviceName : String) : List String :=
  match getById d.services serviceName with
  | none => []
  | some s => s.hosts

theorem registerHost_logLines (d : Datastore) (svc h : String) :
    (registerHost d svc h).logLines = d.logLines := by
  cases hgs : getById d.services svc with
  | none => simp [registerHost, hgs]
  | some s =>
    simp only [registerHost, hgs]
    split <;> rfl

theorem logUploadPost_single (d : Datastore) (svc h : String) (e : LogLineDict) :
    logUploadPost d ⟨svc, h, [e]⟩ = uploadLogLine (registerHost d svc h) svc h e := rfl

/-! ## Service registration: C4 -/

theorem listHosts_registerHost (d : Datastore) (svc h : String) :
    listHosts (registerHost d svc h) svc =
      if h ∈ listHosts d svc then listHosts d svc else listHosts d svc ++ [h] := by
  cases hgs : getById d.services svc with
  | none => simp [registerHost, hgs, listHosts, getById_putById_self]
  | some s =>
    by_cases hmem : h ∈ s.hosts
    · simp [registerHost, hgs, listHosts, hmem]
    · simp [registerHost, hgs, listHosts, hmem, getById_putById_self]

theorem registerHost_mem_hosts (d : Datastore) (svc h : String) :
    ∃ s, getById (registerHost d svc h).services svc = some s ∧ h ∈ s.hosts := by
  cases hgs : getById d.services svc with
  | none =>
    refine ⟨⟨[h]⟩, ?_, ?_⟩
    · simp [registerHost, hgs, getById_putById_self]
    · simp
  | some s =>
    by_cases hmem : h ∈ s.hosts
    · refine ⟨s, ?_, hmem⟩
      simp [registerHost, hgs, hmem]
    · refine ⟨⟨s.hosts ++ [h]⟩, ?_, ?_⟩
      · simp [registerHost, hgs, hmem, getById_putById_self]
      · simp

theorem registerHost_of_mem (d : Datastore) (svc h : String) (s : LoggedService)
    (hgs : getById d.services svc = some s) (hmem : h ∈ s.hosts) :
    registerHost d svc h = d := by
  simp [registerHost, hgs, hmem]

theorem registerHost_idem (d : Datastore) (svc h : String) :
    registerHost (registerHost d svc h) svc h = registerHost d svc h := by
  obtain ⟨s, hs, hmem⟩ := registerHost_mem_hosts d svc h
  exact registerHost_of_mem _ svc h s hs hmem

/-- C4: host registration (dashboard.py lines 770-779) is idempotent:
registering the same host twice for a service gives the same store as
registering it once, the host is registered, and no duplicate entry is
created (a duplicate-free host list stays duplicate-free). -/
theorem register_host_idempotent (d : Datastore) (svc h : String)
    (hnd : (listHosts d svc).Nodup) :
    registerHost (registerHost d svc h) svc h = registerHost d svc h ∧
      h ∈ listHosts (registerHost d svc h) svc ∧
      (listHosts (registerHost d svc h) svc).Nodup := by
  refine ⟨registerHost_idem d svc h, ?_, ?_⟩
  · rw [listHosts_registerHost]
    by_cases hmem : h ∈ listHosts d svc
    · simpa [hmem]
    · simp [hmem]
  · rw [listHosts_registerHost]
    by_cases hmem : h ∈ listHosts d svc
    · simpa [hmem] using hnd
    · simp only [if_neg hmem]
      refine List.Nodup.append hnd (List.nodup_singleton h) ?_
      intro a hal hah
      rw [List.mem_singleton] at hah
      rw [hah] at hal
      exact hmem hal

/-- Witness for C4: registering host h1 twice for service svc from the empty
store, as in the example of the claim. -/
theorem register_host_idempotent_witness :
    (listHosts emptyStore "svc").Nodup ∧
      (registerHost (registerHost emptyStore "svc" "h1") "svc" "h1" =
          registerHost emptyStore "svc" "h1" ∧
        "h1" ∈ listHosts (registerHost emptyStore "svc" "h1") "svc" ∧
        (listHosts (registerHost emptyStore "svc" "h1") "svc").Nodup) :=
  ⟨by decide, register_host_idempotent emptyStore "svc" "h1" (by decide)⟩

/-! ## Uploading twice to the same record key: C2, C9, C8 -/

theorem uploadLogLine_new (d : Datastore) (svc h : String) (e : LogLineDict)
    (hg : getById d.logLines (keyName svc h (pyTrunc e.timestamp)) = none) :
    (uploadLogLine d svc h e).logLines =
      putById d.logLines (keyName svc h (pyTrunc e.timestamp))
        ⟨svc, h, [⟨e.message, e.level, pyTrunc e.timestamp⟩]⟩ := by
  simp [uploadLogLine, hg]

theorem uploadLogLine_existing (d : Datastore) (svc h : String) (e : LogLineDict)
    (r : RequestLogLine)
    (hg : getById d.logLines (keyName svc h (pyTrunc e.timestamp)) = some r) :
    (uploadLogLine d svc h e).logLines =
      putById d.logLines (keyName svc h (pyTrunc e.timestamp))
        ⟨r.service_name, r.host, r.app_logs ++ [⟨e.message, e.level, pyTrunc e.timestamp⟩]⟩ := by
  simp [uploadLogLine, hg]

theorem upload_twice_logLines (d : Datastore) (svc h : String) (e1 e2 : LogLineDict)
    (hkey : pyTrunc e2.timestamp = pyTrunc e1.timestamp)
    (hnew : getById d.logLines (keyName svc h (pyTrunc e1.timestamp)) = none) :
    (logUploadPost (logUploadPost d ⟨svc, h, [e1]⟩) ⟨svc, h, [e2]⟩).logLines =
      putById (putById d.logLines (keyName svc h (pyTrunc e1.timestamp))
          ⟨svc, h, [⟨e1.message, e1.level, pyTrunc e1.timestamp⟩]⟩)
        (keyName svc h (pyTrunc e1.timestamp))
        ⟨svc, h, [⟨e1.message, e1.level, pyTrunc e1.timestamp⟩,
          ⟨e2.message, e2.level, pyTrunc e2.timestamp⟩]⟩ := by
  have hreg1 : (registerHost d svc h).logLines = d.logLines := registerHost_logLines d svc h
  have hget1 : getById (registerHost d svc h).logLines
      (keyName svc h (pyTrunc e1.timestamp)) = none := by
    rw [hreg1]
    exact hnew
  have h1 : (logUploadPost d ⟨svc, h, [e1]⟩).logLines =
      putById d.logLines (keyName svc h (pyTrunc e1.timestamp))
        ⟨svc, h, [⟨e1.message, e1.level, pyTrunc e1.timestamp⟩]⟩ := by
    rw [logUploadPost_single, uploadLogLine_new _ _ _ _ hget1, hreg1]
  have hreg2 : (registerHost (logUploadPost d ⟨svc, h, [e1]⟩) svc h).logLines =
      (logUploadPost d ⟨svc, h, [e1]⟩).logLines := registerHost_logLines _ svc h
  have hget2 : getById (registerHost (logUploadPost d ⟨svc, h, [e1]⟩) svc h).logLines
      (keyName svc h (pyTrunc e2.timestamp)) =
      some ⟨svc, h, [⟨e1.message, e1.level, pyTrunc e1.timestamp⟩]⟩ := by
    rw [hreg2, h1, hkey]
    exact getById_putById_self _ _ _
  rw [logUploadPost_single, uploadLogLine_existing _ _ _ _ _ hget2, hreg2, h1, hkey]
  simp

/-- C2: uploading a log entry twice for the same (service, host, timestamp),
with different messages, yields a single RequestLogLine under the derived key
whose app_logs holds both entries in append order; exactly one record is
stored for that key, and no other key of the store is touched. -/
theorem upload_same_key_twice_single_record (d : Datastore) (svc h : String) (q : ℚ)
    (m1 m2 : String) (l1 l2 : ℤ) (hm : m1 ≠ m2)
    (hnew : getById d.logLines (keyName svc h (pyTrunc q)) = none) :
    getById (logUploadPost (logUploadPost d ⟨svc, h, [⟨q, m1, l1⟩]⟩)
        ⟨svc, h, [⟨q, m2, l2⟩]⟩).logLines (keyName svc h (pyTrunc q)) =
      some ⟨svc, h, [⟨m1, l1, pyTrunc q⟩, ⟨m2, l2, pyTrunc q⟩]⟩ ∧
    ((logUploadPost (logUploadPost d ⟨svc, h, [⟨q, m1, l1⟩]⟩)
        ⟨svc, h, [⟨q, m2, l2⟩]⟩).logLines.filter
          (fun p => p.1 == keyName svc h (pyTrunc q))).length = 1 ∧
    (∀ k2, k2 ≠ keyName svc h (pyTrunc q) →
      getById (logUploadPost (logUploadPost d ⟨svc, h, [⟨q, m1, l1⟩]⟩)
          ⟨svc, h, [⟨q, m2, l2⟩]⟩).logLines k2 = getById d.logLines k2) := by
  have ht := upload_twice_logLines d svc h ⟨q, m1, l1⟩ ⟨q, m2, l2⟩ rfl hnew
  refine ⟨?_, ?_, ?_⟩
  · rw [ht]
    exact getById_putById_self _ _ _
  · rw [ht, filter_putById_putById _ _ _ _ hnew]
    rfl
  · intro k2 hk2
    rw [ht, getById_putById_ne _ _ _ _ hk2, getById_putById_ne _ _ _ _ hk2]

/-- Witness for C2: two uploads for (s1, h1, 1000) with messages boot and
halt, starting from the empty store. -/
theorem upload_same_key_twice_single_record_witness :
    ("boot" : String) ≠ "halt" ∧
    getById emptyStore.logLines (keyName "s1" "h1" (pyTrunc 1000)) = none ∧
    (getById (logUploadPost (logUploadPost emptyStore ⟨"s1", "h1", [⟨1000, "boot", 1⟩]⟩)
        ⟨"s1", "h1", [⟨1000, "halt", 2⟩]⟩).logLines (keyName "s1" "h1" (pyTrunc 1000)) =
      some ⟨"s1", "h1", [⟨"boot", 1, pyTrunc 1000⟩, ⟨"halt", 2, pyTrunc 1000⟩]⟩ ∧
    ((logUploadPost (logUploadPost emptyStore ⟨"s1", "h1", [⟨1000, "boot", 1⟩]⟩)
        ⟨"s1", "h1", [⟨1000, "halt", 2⟩]⟩).logLines.filter
          (fun p => p.1 == keyName "s1" "h1" (pyTrunc 1000))).length = 1 ∧
    (∀ k2, k2 ≠ keyName "s1" "h1" (pyTrunc 1000) →
      getById (logUploadPost (logUploadPost emptyStore ⟨"s1", "h1", [⟨1000, "boot", 1⟩]⟩)
          ⟨"s1", "h1", [⟨1000, "halt", 2⟩]⟩).logLines k2 = getById emptyStore.logLines k2)) :=
  ⟨by decide, rfl,
    upload_same_key_twice_single_record emptyStore "s1" "h1" 1000 "boot" "halt" 1 2
      (by decide) rfl⟩

/-- C9: the uploaded timestamp is truncated to whole seconds by int() before
key encoding, so two entries whose rational timestamps differ only
fractionally within the same whole second get the same record key and land in
the same stored record. -/
theorem fractional_timestamps_share_record (d : Datastore) (svc h : String)
    (q1 q2 : ℚ) (m1 m2 : String) (l1 l2 : ℤ)
    (hfrac : q1 ≠ q2) (hsec : pyTrunc q1 = pyTrunc q2)
    (hnew : getById d.logLines (keyName svc h (pyTrunc q1)) = none) :
    keyName svc h (pyTrunc q1) = keyName svc h (pyTrunc q2) ∧
    getById (logUploadPost (logUploadPost d ⟨svc, h, [⟨q1, m1, l1⟩]⟩)
        ⟨svc, h, [⟨q2, m2, l2⟩]⟩).logLines (keyName svc h (pyTrunc q1)) =
      some ⟨svc, h, [⟨m1, l1, pyTrunc q1⟩, ⟨m2, l2, pyTrunc q2⟩]⟩ := by
  have ht := upload_twice_logLines d svc h ⟨q1, m1, l1⟩ ⟨q2, m2, l2⟩ hsec.symm hnew
  refine ⟨by rw [hsec], ?_⟩
  rw [ht]
  exact getById_putById_self _ _ _

/-- Witness for C9: timestamps 4001/4 = 1000.25 and 4003/4 = 1000.75 both
truncate to second 1000. -/
theorem fractional_timestamps_share_record_witness :
    Rat.divInt 4001 4 ≠ Rat.divInt 4003 4 ∧
    pyTrunc (Rat.divInt 4001 4) = pyTrunc (Rat.divInt 4003 4) ∧
    getById emptyStore.logLines (keyName "s1" "h1" (pyTrunc (Rat.divInt 4001 4))) = none ∧
    (keyName "s1" "h1" (pyTrunc (Rat.divInt 4001 4)) =
        keyName "s1" "h1" (pyTrunc (Rat.divInt 4003 4)) ∧
      getById (logUploadPost (logUploadPost emptyStore
            ⟨"s1", "h1", [⟨Rat.divInt 4001 4, "a", 1⟩]⟩)
          ⟨"s1", "h1", [⟨Rat.divInt 4003 4, "b", 2⟩]⟩).logLines
          (keyName "s1" "h1" (pyTrunc (Rat.divInt 4001 4))) =
        some ⟨"s1", "h1", [⟨"a", 1, pyTrunc (Rat.divInt 4001 4)⟩,
          ⟨"b", 2, pyTrunc (Rat.divInt 4003 4)⟩]⟩) :=
  ⟨by decide, by decide, rfl,
    fractional_timestamps_share_record emptyStore "s1" "h1"
      (Rat.divInt 4001 4) (Rat.divInt 4003 4) "a" "b" 1 2 (by decide) (by decide) rfl⟩

/-- C8: the record key is built by plain string concatenation, so the
distinct pairs (service ab, host c) and (service a, host bc) produce the
same key for every timestamp, and their uploads at the same second are
merged into one single stored record. -/
theorem concatenated_key_collision :
    (∀ t : ℤ, keyName "ab" "c" t = keyName "a" "bc" t) ∧
    (("ab", "c") : String × String) ≠ ("a", "bc") ∧
    getById (logUploadPost (logUploadPost emptyStore ⟨"ab", "c", [⟨1000, "x", 1⟩]⟩)
        ⟨"a", "bc", [⟨1000, "y", 2⟩]⟩).logLines (keyName "ab" "c" (pyTrunc 1000)) =
      some ⟨"ab", "c", [⟨"x", 1, pyTrunc 1000⟩, ⟨"y", 2, pyTrunc 1000⟩]⟩ ∧
    (logUploadPost (logUploadPost emptyStore ⟨"ab", "c", [⟨1000, "x", 1⟩]⟩)
        ⟨"a", "bc", [⟨1000, "y", 2⟩]⟩).logLines.length = 1 := by
  have hpre : ("ab" : String) ++ "c" = "a" ++ "bc" := rfl
  refine ⟨?_, by decide, by decide, by decide⟩
  intro t
  show ("ab" ++ "c") ++ encodeTimeKey t = ("a" ++ "bc") ++ encodeTimeKey t
  rw [hpre]

/-! ## Paginated log viewing: LogServiceHostPage (dashboard.py lines 706-755)

The query primitive is ndb fetch_page over the Datastore.  A Datastore query
with no explicit sort order returns entities in ascending key order, and a
query cursor marks the position after the last returned result; the theorems
below therefore take the key-sortedness of the stored table as an explicit
hypothesis (it is the standing invariant of the key-ordered store). -/

/-- The number of logs presented on each page (dashboard.py line 714). -/
def LOGS_PER_PAGE : ℕ := 20

/-- The entities matched by RequestLogLine.query (lines 734-742): filter on
service_name, and additionally on host unless host is the sentinel all. -/
def queryPairs (d : Datastore) (serviceName host : String) :
    List (String × RequestLogLine) :=
  if host = "all" then
    d.logLines.filter (fun p => p.2.service_name == serviceName)
  else
    d.logLines.filter (fun p => p.2.service_name == serviceName && p.2.host == host)

/-- Model of fetch_page on the key-ordered match list: a cursor is a scan
position, a page is the next page_size results, the returned cursor points
past the last returned result, and the more flag reports whether results
remain beyond this page. -/
def fetchPage {α : Type} (recs : List α) (pageSize cursor : ℕ) :
    List α × ℕ × Bool :=
  ((recs.drop cursor).take pageSize,
    cursor + min pageSize (recs.length - cursor),
    decide (pageSize < (recs.drop cursor).length))

/-- Drive the pagination loop: fetch a page and continue from the returned
cursor while the more flag is set, collecting all returned records.  fuel
bounds the number of fetches. -/
def collectPages {α : Type} (recs : List α) (pageSize : ℕ) : ℕ → ℕ → List α
  | 0, _ => []
  | fuel + 1, cursor =>
    let r := fetchPage recs pageSize cursor
    if r.2.2 then r.1 ++ collectPages recs pageSize fuel r.2.1 else r.1

theorem collectPages_succ {α : Type} (recs : List α) (pageSize fuel cursor : ℕ) :
    collectPages recs pageSize (fuel + 1) cursor =
      if pageSize < (recs.drop cursor).length then
        (recs.drop cursor).take pageSize ++
          collectPages recs pageSize fuel (cursor + min pageSize (recs.length - cursor))
      else (recs.drop cursor).take pageSize := by
  simp [collectPages, fetchPage]

theorem collectPages_eq_drop {α : Type} (recs : List α) (pageSize : ℕ) :
    ∀ fuel cursor, recs.length ≤ cursor + (fuel + 1) * pageSize →
      collectPages recs pageSize (fuel + 1) cursor = recs.drop cursor := by
  intro fuel
  induction fuel with
  | zero =>
    intro cursor hlen
    have hlendrop : (recs.drop cursor).length = recs.length - cursor :=
      List.length_drop _ _
    have hone : (0 + 1) * pageSize = pageSize := by ring
    rw [hone] at hlen
    have hmore : ¬ pageSize < (recs.drop cursor).length := by omega
    rw [collectPages_succ, if_neg hmore]
    exact List.take_of_length_le (by omega)
  | succ fuel ih =>
    intro cursor hlen
    have hlendrop : (recs.drop cursor).length = recs.length - cursor :=
      List.length_drop _ _
    have hexp : (fuel + 1 + 1) * pageSize = (fuel + 1) * pageSize + pageSize := by ring
    rw [hexp] at hlen
    rw [collectPages_succ]
    by_cases hmore : pageSize < (recs.drop cursor).length
    · rw [if_pos hmore]
      have hmin : min pageSize (recs.length - cursor) = pageSize := by omega
      rw [hmin, ih (cursor + pageSize) (by omega), ← List.drop_drop, List.take_append_drop]
    · rw [if_neg hmore]
      exact List.take_of_length_le (by omega)

theorem queryPairs_sublist (d : Datastore) (serviceName host : String) :
    (queryPairs d serviceName host).Sublist d.logLines := by
  unfold queryPairs
  split
  · exact List.filter_sublist _
  · exact List.filter_sublist _

theorem lex_append_left {α : Type} [LT α] :
    ∀ (p l1 l2 : List α), List.Lex (· < ·) l1 l2 →
      List.Lex (· < ·) (p ++ l1) (p ++ l2) := by
  intro p l1 l2 h
  induction p with
  | nil => simpa using h
  | cons c cs ih => exact List.Lex.cons ih

theorem keyName_lt_of_lt (svc host : String) {a b : ℤ}
    (h0 : 0 ≤ a) (hab : a < b) (hb : b ≤ windowMax) :
    keyName svc host b < keyName svc host a := by
  have henc : encodeTimeKey b < encodeTimeKey a := encodeTimeKey_lt h0 hab hb
  have hlex : List.Lex (· < ·) (encodeTimeKey b).data (encodeTimeKey a).data :=
    String.lt_iff_toList_lt.mp henc
  have hgoal : List.Lex (· < ·) ((svc ++ host) ++ encodeTimeKey b).data
      ((svc ++ host) ++ encodeTimeKey a).data := by
    rw [String.data_append, String.data_append]
    exact lex_append_left _ _ _ hlex
  exact String.lt_iff_toList_lt.mpr hgoal

theorem lt_of_keyName_lt (svc host : String) {a b : ℤ}
    (ha0 : 0 ≤ a) (haw : a ≤ windowMax) (hb0 : 0 ≤ b) (hbw : b ≤ windowMax)
    (h : keyName svc host a < keyName svc host b) : b < a := by
  rcases lt_trichotomy a b with hab | hab | hab
  · exact absurd h (lt_asymm (keyName_lt_of_lt svc host ha0 hab hbw))
  · subst hab
    exact absurd h (lt_irrefl _)
  · exact hab

/-- C3: on a key-sorted store whose matching records carry in-window
reversed-time keys, driving the pagination loop from no cursor and feeding
each returned cursor into the next fetch while the more flag is set returns
every record matching the (service, host) filter exactly once (the
concatenation of the pages is exactly the match list), the pages come in
strictly descending timestamp order, and the more flag turns false exactly
when the page reaches the end of the match list. -/
theorem paginated_query_complete_descending (d : Datastore) (svc host : String)
    (tsOf : String × RequestLogLine → ℕ)
    (hhost : host ≠ "all")
    (hsorted : List.Pairwise (fun p q => p.1 < q.1) d.logLines)
    (hkeys : ∀ p ∈ queryPairs d svc host,
      p.1 = keyName svc host (tsOf p : ℤ) ∧ (tsOf p : ℤ) ≤ windowMax) :
    collectPages (queryPairs d svc host) LOGS_PER_PAGE
        ((queryPairs d svc host).length + 1) 0 = queryPairs d svc host ∧
    List.Pairwise (fun p q => tsOf q < tsOf p) (queryPairs d svc host) ∧
    (∀ cursor, (fetchPage (queryPairs d svc host) LOGS_PER_PAGE cursor).2.2 = false ↔
      (queryPairs d svc host).length ≤ cursor + LOGS_PER_PAGE) := by
  refine ⟨?_, ?_, ?_⟩
  · have hful : (queryPairs d svc host).length ≤
        0 + ((queryPairs d svc host).length + 1) * LOGS_PER_PAGE := by
      have hexp : ((queryPairs d svc host).length + 1) * LOGS_PER_PAGE =
          (queryPairs d svc host).length * LOGS_PER_PAGE + LOGS_PER_PAGE := by ring
      have hge : (queryPairs d svc host).length * LOGS_PER_PAGE ≥
          (queryPairs d svc host).length * 1 := by
        apply Nat.mul_le_mul_left
        norm_num [LOGS_PER_PAGE]
      omega
    have hc := collectPages_eq_drop (queryPairs d svc host) LOGS_PER_PAGE
      (queryPairs d svc host).length 0 hful
    simpa using hc
  · have hp : List.Pairwise (fun p q => p.1 < q.1) (queryPairs d svc host) :=
      List.Pairwise.sublist (queryPairs_sublist d svc host) hsorted
    refine List.Pairwise.imp_of_mem ?_ hp
    intro p q hpmem hqmem hlt
    obtain ⟨hkp, hwp⟩ := hkeys p hpmem
    obtain ⟨hkq, hwq⟩ := hkeys q hqmem
    rw [hkp, hkq] at hlt
    have hint : (tsOf q : ℤ) < (tsOf p : ℤ) :=
      lt_of_keyName_lt svc host (Int.natCast_nonneg _) hwp (Int.natCast_nonneg _) hwq hlt
    exact_mod_cast hint
  · intro cursor
    have hlendrop : ((queryPairs d svc host).drop cursor).length =
        (queryPairs d svc host).length - cursor := List.length_drop _ _
    simp only [fetchPage, decide_eq_false_iff_not, not_lt, LOGS_PER_PAGE]
    omega

/-- Concrete store for the pagination witness: two records for service s1 on
host h1, at seconds 2000 and 1000, in ascending key order. -/
def paginationStore : Datastore :=
  ⟨[], [(keyName "s1" "h1" 2000, ⟨"s1", "h1", [⟨"x", 1, 2000⟩]⟩),
        (keyName "s1" "h1" 1000, ⟨"s1", "h1", [⟨"y", 1, 1000⟩]⟩)]⟩

/-- The timestamps of the records of paginationStore. -/
def paginationTsOf (p : String × RequestLogLine) : ℕ :=
  if p.1 = keyName "s1" "h1" 2000 then 2000 else 1000

/-- Witness for C3 on paginationStore. -/
theorem paginated_query_complete_descending_witness :
    (("h1" : String) ≠ "all" ∧
      List.Pairwise (fun p q : String × RequestLogLine => p.1 < q.1)
        paginationStore.logLines ∧
      (∀ p ∈ queryPairs paginationStore "s1" "h1",
        p.1 = keyName "s1" "h1" (paginationTsOf p : ℤ) ∧
          (paginationTsOf p : ℤ) ≤ windowMax)) ∧
    (collectPages (queryPairs paginationStore "s1" "h1") LOGS_PER_PAGE
        ((queryPairs paginationStore "s1" "h1").length + 1) 0 =
          queryPairs paginationStore "s1" "h1" ∧
      List.Pairwise (fun p q => paginationTsOf q < paginationTsOf p)
        (queryPairs paginationStore "s1" "h1") ∧
      (∀ cursor,
        (fetchPage (queryPairs paginationStore "s1" "h1") LOGS_PER_PAGE cursor).2.2 = false ↔
          (queryPairs paginationStore "s1" "h1").length ≤ cursor + LOGS_PER_PAGE)) := by
  have hsorted : List.Pairwise (fun p q : String × RequestLogLine => p.1 < q.1)
      paginationStore.logLines := by
    refine List.pairwise_cons.mpr ⟨?_, by simp⟩
    intro q hq
    rw [List.mem_singleton] at hq
    subst hq
    exact keyName_lt_of_lt "s1" "h1" (by norm_num) (by norm_num)
      (by rw [windowMax_eq]; norm_num)
  exact ⟨⟨by decide, hsorted, by decide⟩,
    paginated_query_complete_descending paginationStore "s1" "h1" paginationTsOf
      (by decide) hsorted (by decide)⟩

/-! ## Cursor handling of LogServiceHostPage.get (dashboard.py lines 728-747)

The cursor tokens are caller-inscrutable urlsafe strings from the query layer; the
codec is modelled as the decimal numeral of the scan position, and decoding
any string that is not such a token fails, which in the source means
Cursor(urlsafe=encoded_cursor) raises an uncaught exception (no handler in
dashboard.py catches it, so the request ends as a server error). -/

/-- Accumulate the value of a decimal digit string; any non-digit character
makes decoding fail. -/
def digitsVal : List Char → ℕ → Option ℕ
  | [], acc => some acc
  | c :: cs, acc =>
    if 48 ≤ c.toNat ∧ c.toNat ≤ 57 then digitsVal cs (acc * 10 + (c.toNat - 48))
    else none

/-- Model of datastore_query.Cursor(urlsafe=s): recover a scan position from
a produced token; fail on anything else. -/
def cursorFromUrlsafe (s : String) : Option ℕ :=
  match s.data with
  | [] => none
  | l => digitsVal l 0

/-- Model of cursor.urlsafe(): the token of a scan position. -/
def cursorUrlsafe (n : ℕ) : String := pyNatStr n

/-- The values handed to the viewer template (lines 749-755). -/
structure PageView where
  service_name : String
  host : String
  query : List RequestLogLine
  next_cursor : Option String
  is_more : Bool
deriving DecidableEq

/-- The outcome of a request: a rendered page, or an uncaught exception
rendered as a 500 server error (dashboard.py lines 833-841). -/
inductive PageResult where
  | ok (view : PageView) : PageResult
  | serverError : PageResult
deriving DecidableEq

/-- Fetch and render one page starting at the given scan position. -/
def pageFor (d : Datastore) (serviceName host : String) (cursor : ℕ) : PageResult :=
  let res := fetchPage ((queryPairs d serviceName host).map Prod.snd) LOGS_PER_PAGE cursor
  PageResult.ok
    { service_name := serviceName, host := host, query := res.1,
      next_cursor := some (cursorUrlsafe res.2.1), is_more := res.2.2 }

/-- LogServiceHostPage.get, lines 728-747: a nonempty cursor parameter other
than the literal string None is decoded (raising on an invalid token); an
absent, empty or literal None parameter starts from the beginning. -/
def logServiceHostGet (d : Datastore) (serviceName host cursorParam : String) :
    PageResult :=
  if cursorParam ≠ "" ∧ cursorParam ≠ "None" then
    match cursorFromUrlsafe cursorParam with
    | none => PageResult.serverError
    | some c => pageFor d serviceName host c
  else pageFor d serviceName host 0

/-- Counterexample to C6: the cursor string garbage is invalid; the handler
ends in an uncaught-exception server error rather than a CursorExpired
outcome restarting pagination from the first page (which would be the result
of the empty cursor). -/
theorem invalid_cursor_crashes_cex :
    logServiceHostGet emptyStore "s1" "h1" "garbage" = PageResult.serverError ∧
    logServiceHostGet emptyStore "s1" "h1" "garbage" ≠
      logServiceHostGet emptyStore "s1" "h1" "" := by
  constructor
  · decide
  · decide

/-- C6 (amended): a query whose cursor parameter is nonempty, not the
literal None, and not decodable as a cursor token fails with an uncaught
exception surfaced as a server error, not as a restart instruction; only an
absent/empty or literal None cursor restarts pagination from the first
page. -/
theorem invalid_cursor_server_error (d : Datastore) (svc host cursorParam : String)
    (hne : cursorParam ≠ "") (hnn : cursorParam ≠ "None")
    (hbad : cursorFromUrlsafe cursorParam = none) :
    logServiceHostGet d svc host cursorParam = PageResult.serverError ∧
    logServiceHostGet d svc host "" = pageFor d svc host 0 ∧
    logServiceHostGet d svc host "None" = pageFor d svc host 0 := by
  refine ⟨?_, by simp [logServiceHostGet], by simp [logServiceHostGet]⟩
  simp [logServiceHostGet, hne, hnn, hbad]

/-- Witness for the amended C6 at the concrete invalid cursor garbage. -/
theorem invalid_cursor_server_error_witness :
    (("garbage" : String) ≠ "" ∧ ("garbage" : String) ≠ "None" ∧
      cursorFromUrlsafe "garbage" = none) ∧
    (logServiceHostGet emptyStore "s1" "h1" "garbage" = PageResult.serverError ∧
      logServiceHostGet emptyStore "s1" "h1" "" = pageFor emptyStore "s1" "h1" 0 ∧
      logServiceHostGet emptyStore "s1" "h1" "None" = pageFor emptyStore "s1" "h1" 0) :=
  ⟨⟨by decide, by decide, by decide⟩,
    invalid_cursor_server_error emptyStore "s1" "h1" "garbage"
      (by decide) (by decide) (by decide)⟩

/-- C10: the literal cursor string None is treated exactly like an absent or
empty cursor parameter: pagination starts from the first page with no start
cursor, and None is never decoded as a cursor token. -/
theorem cursor_none_literal_like_absent (d : Datastore) (svc host : String) :
    logServiceHostGet d svc host "None" = logServiceHostGet d svc host "" ∧
    logServiceHostGet d svc host "None" = pageFor d svc host 0 := by
  constructor
  · simp [logServiceHostGet]
  · simp [logServiceHostGet]

/-! ## Refresh-task enqueueing (dashboard.py lines 110-112, 487-517, 551-569) -/

/-- The delay, in seconds, of the second refresh task (line 112). -/
def REFRESH_WAIT_TIME : ℕ := 10

/-- A task added to the task queue: taskqueue.add(url=..., countdown=...),
countdown 0 when omitted (immediate). -/
structure QueueTask where
  url : String
  countdown : ℕ
deriving DecidableEq

/-- The tasks enqueued by AppUploadPage.post (lines 487-517): nothing without
a file or without upload permission; on a successful upload (nonempty
success message from upload_app) one immediate refresh task and one delayed
by REFRESH_WAIT_TIME; nothing when upload_app raises AppHelperException. -/
def appUploadTasks (hasFile canUpload : Bool) (uploadOutcome : Except String String) :
    List QueueTask :=
  if hasFile = false then []
  else if canUpload then
    match uploadOutcome with
    | Except.ok successMsg =>
      if successMsg ≠ "" then
        [⟨"/status/refresh", 0⟩, ⟨"/status/refresh", REFRESH_WAIT_TIME⟩]
      else []
    | Except.error _ => []
  else []

/-- The tasks enqueued by AppDeletePage.post (lines 551-569): an authorized
delete enqueues one immediate refresh task and one delayed by
REFRESH_WAIT_TIME; an unauthorized request enqueues nothing. -/
def appDeleteTasks (authorized : Bool) : List QueueTask :=
  if authorized then [⟨"/status/refresh", 0⟩, ⟨"/status/refresh", REFRESH_WAIT_TIME⟩]
  else []

/-- C5: a successful app upload and an (authorized) app delete each enqueue
exactly two refresh triggers, one immediate and one delayed by
REFRESH_WAIT_TIME = 10; a failed upload (helper exception, or no permission)
enqueues none. -/
theorem mutating_ops_enqueue_two_refreshes (msg : String) (hmsg : msg ≠ "") :
    appUploadTasks true true (Except.ok msg) =
      [⟨"/status/refresh", 0⟩, ⟨"/status/refresh", REFRESH_WAIT_TIME⟩] ∧
    appDeleteTasks true =
      [⟨"/status/refresh", 0⟩, ⟨"/status/refresh", REFRESH_WAIT_TIME⟩] ∧
    REFRESH_WAIT_TIME = 10 ∧
    (∀ hasFile canUpload err,
      appUploadTasks hasFile canUpload (Except.error err) = []) ∧
    (∀ outcome, appUploadTasks true false outcome = []) := by
  refine ⟨by simp [appUploadTasks, hmsg], rfl, rfl, ?_, ?_⟩
  · intro hasFile canUpload err
    cases hasFile <;> cases canUpload <;> simp [appUploadTasks]
  · intro outcome
    simp [appUploadTasks]

/-- Witness for C5 with the concrete success message done. -/
theorem mutating_ops_enqueue_two_refreshes_witness :
    ("done" : String) ≠ "" ∧
    (appUploadTasks true true (Except.ok "done") =
        [⟨"/status/refresh", 0⟩, ⟨"/status/refresh", REFRESH_WAIT_TIME⟩] ∧
      appDeleteTasks true =
        [⟨"/status/refresh", 0⟩, ⟨"/status/refresh", REFRESH_WAIT_TIME⟩] ∧
      REFRESH_WAIT_TIME = 10 ∧
      (∀ hasFile canUpload err,
        appUploadTasks hasFile canUpload (Except.error err) = []) ∧
      (∀ outcome, appUploadTasks true false outcome = [])) :=
  ⟨by decide, mutating_ops_enqueue_two_refreshes "done" (by decide)⟩

/-! ## StatusRefreshPage (dashboard.py lines 193-210)

Both the GET and the POST handler unconditionally call dstore.update_all()
and write a status message; the handler keeps no state distinguishing idle
from refreshing and no pending-rerun flag.  The accounting below counts the
update_all cycles run. -/

structure RefreshAccounting where
  cycles : ℕ
deriving DecidableEq

/-- One delivered refresh trigger: StatusRefreshPage.get / .post runs one
full update_all cycle, unconditionally. -/
def statusRefreshHandle (s : RefreshAccounting) : RefreshAccounting :=
  { cycles := s.cycles + 1 }

/-- Deliver n refresh triggers to the handler, one after the other. -/
def deliverTriggers : RefreshAccounting → ℕ → RefreshAccounting
  | s, 0 => s
  | s, n + 1 => deliverTriggers (statusRefreshHandle s) n

/-- Counterexample to C7: delivering 3 refresh triggers (one starting a
cycle and two more arriving while it is nominally in flight) runs 3 full
refresh cycles, not the 2 (one in flight plus exactly one coalesced
follow-up) that the claim requires: the handler has no coalescing state at
all, so nothing ever merges triggers. -/
theorem refresh_triggers_not_coalesced_cex :
    (deliverTriggers ⟨0⟩ 3).cycles = 3 ∧ (3 : ℕ) ≠ 2 := ⟨rfl, by decide⟩

/-- C7 (amended): every delivered refresh trigger unconditionally runs its
own full update_all cycle, so n triggers always run n cycles; there is no
at-most-one-in-flight bound and no coalescing of triggers into a single
pending re-run. -/
theorem refresh_triggers_one_cycle_each (s : RefreshAccounting) (n : ℕ) :
    (deliverTriggers s n).cycles = s.cycles + n := by
  induction n generalizing s with
  | zero => rfl
  | succ n ih =>
    show (deliverTriggers (statusRefreshHandle s) n).cycles = s.cycles + (n + 1)
    rw [ih (statusRefreshHandle s)]
    show s.cycles + 1 + n = s.cycles + (n + 1)
    omega
